import Mathlib

/-!
Verification of the tmux control-mode parser in
`src/wezterm-escape-parser/src/tmux_cc/mod.rs`.

Bytes are modelled as `Nat` (values < 256 in practice); Rust `String`s are
modelled as their UTF-8 byte sequences (`List Nat`).
-/

namespace TmuxCC

/-- A byte, modelled as a natural number. -/
abbrev Byte := Nat

/-- Byte sequence of an ASCII string literal (used to state concrete inputs). -/
def ascii (s : String) : List Byte := s.data.map Char.toNat

/-! ## The `unvis` decoder (`unvis_bytes` / `unvis` in mod.rs) -/

/-- States of the OpenBSD `vis` decoder state machine (enum `State` in `unvis_bytes`). -/
inductive VisState where
  | Ground
  | Start
  | Meta
  | Meta1
  | Ctrl (c : Byte)
  | Octal2 (v : Byte)
  | Octal3 (v : Byte)
deriving DecidableEq, Repr

/-- `is_octal` from mod.rs: `b'0' <= b && b <= b'7'`. -/
def is_octal (b : Byte) : Bool := 48 ≤ b && b ≤ 55

/-- One step of the decoder (`unvis_byte` in mod.rs). Returns the new state, the bytes
pushed to `result`, and the `again` flag requesting that the byte be re-processed.
`none` models the `bail!` error paths. `u8` arithmetic is `Nat` with `% 256` where the
source can overflow (`prior << 3` wraps on `u8`). -/
def unvis_byte (b : Byte) (state : VisState) : Option (VisState × List Byte × Bool) :=
  match state with
  | .Ground => if b = 92 then some (.Start, [], false) else some (.Ground, [b], false)
  | .Start =>
    if b = 92 then some (.Ground, [92], false)
    else if is_octal b then some (.Octal2 (b - 48), [], false)
    else if b = 77 then some (.Meta, [], false)
    else if b = 94 then some (.Ctrl 0, [], false)
    else if b = 110 then some (.Ground, [10], false)
    else if b = 114 then some (.Ground, [13], false)
    else if b = 98 then some (.Ground, [8], false)
    else if b = 97 then some (.Ground, [7], false)
    else if b = 118 then some (.Ground, [11], false)
    else if b = 116 then some (.Ground, [9], false)
    else if b = 102 then some (.Ground, [12], false)
    else if b = 115 then some (.Ground, [32], false)
    else if b = 69 then some (.Ground, [27], false)
    else if b = 10 then some (.Ground, [], false)
    else if b = 36 then some (.Ground, [], false)
    else none
  | .Meta =>
    if b = 45 then some (.Meta1, [], false)
    else if b = 94 then some (.Ctrl 128, [], false)
    else none
  | .Meta1 => some (.Ground, [b ||| 128], false)
  | .Ctrl c =>
    if b = 63 then some (.Ground, [c ||| 127], false)
    else some (.Ground, [(b &&& 31) ||| c], false)
  | .Octal2 prior =>
    if is_octal b then some (.Octal3 ((prior * 8 + (b - 48)) % 256), [], false)
    else some (.Ground, [prior], true)
  | .Octal3 prior =>
    if is_octal b then some (.Ground, [(prior * 8 + (b - 48)) % 256], false)
    else some (.Ground, [prior], true)

/-- The driving loop of `unvis_bytes`: step each byte, and when `again` is requested
step the same byte once more (the second `again` is ignored, as in the source). -/
def unvisRun (state : VisState) (l : List Byte) : Option (List Byte) :=
  match l with
  | [] => some []
  | b :: bs =>
    match unvis_byte b state with
    | none => none
    | some (st1, out1, again) =>
      if again then
        match unvis_byte b st1 with
        | none => none
        | some (st2, out2, _) =>
          match unvisRun st2 bs with
          | none => none
          | some rest => some (out1 ++ out2 ++ rest)
      else
        match unvisRun st1 bs with
        | none => none
        | some rest => some (out1 ++ rest)

/-- `unvis_bytes` from mod.rs: run the decoder from `Ground` over the whole input. -/
def unvis_bytes (s : List Byte) : Option (List Byte) := unvisRun .Ground s

/-- Continuation-byte test for UTF-8 validation: `0x80 ≤ c ≤ 0xBF`. -/
def contB (c : Byte) : Bool := 128 ≤ c && c ≤ 191

/-- UTF-8 validity of a byte sequence, as enforced by Rust's `std::str::from_utf8`
(RFC 3629 table: no overlong forms, no surrogates, max U+10FFFF). -/
def validUtf8 : List Byte → Bool
  | [] => true
  | b :: rest =>
    if b ≤ 127 then validUtf8 rest
    else if 194 ≤ b && b ≤ 223 then
      match rest with
      | c1 :: r => contB c1 && validUtf8 r
      | [] => false
    else if b = 224 then
      match rest with
      | c1 :: c2 :: r => (160 ≤ c1 && c1 ≤ 191) && contB c2 && validUtf8 r
      | _ => false
    else if b = 237 then
      match rest with
      | c1 :: c2 :: r => (128 ≤ c1 && c1 ≤ 159) && contB c2 && validUtf8 r
      | _ => false
    else if 225 ≤ b && b ≤ 239 then
      match rest with
      | c1 :: c2 :: r => contB c1 && contB c2 && validUtf8 r
      | _ => false
    else if b = 240 then
      match rest with
      | c1 :: c2 :: c3 :: r => (144 ≤ c1 && c1 ≤ 191) && contB c2 && contB c3 && validUtf8 r
      | _ => false
    else if 241 ≤ b && b ≤ 243 then
      match rest with
      | c1 :: c2 :: c3 :: r => contB c1 && contB c2 && contB c3 && validUtf8 r
      | _ => false
    else if b = 244 then
      match rest with
      | c1 :: c2 :: c3 :: r => (128 ≤ c1 && c1 ≤ 143) && contB c2 && contB c3 && validUtf8 r
      | _ => false
    else false

/-- `unvis` from mod.rs: decode, then require the result to be valid UTF-8
(the `String::from_utf8` check). -/
def unvis (s : List Byte) : Option (List Byte) :=
  match unvis_bytes s with
  | none => none
  | some r => if validUtf8 r then some r else none

/-! ## Events (`Guarded` and `Event` in mod.rs) -/

/-- The `Guarded` record: an open guarded block. `output` is the UTF-8 byte
sequence of the accumulated `String`. Timestamps/numbers/flags are the
non-negative integers the digit-only grammar can produce. -/
structure Guarded where
  error : Bool
  timestamp : Nat
  number : Nat
  flags : Nat
  output : List Byte
deriving DecidableEq, Repr

/-- The `Event` enum from mod.rs. Text fields are UTF-8 byte sequences. -/
inductive Event where
  | Begin (timestamp number flags : Nat)
  | End (timestamp number flags : Nat)
  | Error (timestamp number flags : Nat)
  | Guarded (g : Guarded)
  | ClientDetached (client_name : List Byte)
  | ClientSessionChanged (client_name : List Byte) (session : Nat) (session_name : List Byte)
  | ConfigError (err : List Byte)
  | Continue (pane : Nat)
  | ExtendedOutput (pane : Nat) (text : List Byte)
  | Exit (reason : Option (List Byte))
  | LayoutChange (window : Nat) (layout : List Byte)
      (visible_layout : Option (List Byte)) (raw_flags : Option (List Byte))
  | Message (msg : List Byte)
  | Output (pane : Nat) (text : List Byte)
  | PaneModeChanged (pane : Nat)
  | PasteBufferChanged (buffer : List Byte)
  | PasteBufferDeleted (buffer : List Byte)
  | Pause (pane : Nat)
  | SessionChanged (session : Nat) (name : List Byte)
  | SessionRenamed (name : List Byte)
  | SessionsChanged
  | SessionWindowChanged (session window : Nat)
  | SubscriptionChanged
  | UnlinkedWindowAdd (window : Nat)
  | UnlinkedWindowClose (window : Nat)
  | UnlinkedWindowRenamed (window : Nat)
  | WindowAdd (window : Nat)
  | WindowClose (window : Nat)
  | WindowPaneChanged (window pane : Nat)
  | WindowRenamed (window : Nat) (name : List Byte)
deriving DecidableEq, Repr

/-! ## The line parser (`parse_line` in mod.rs)

The pest grammar `tmux_cc/tmux.pest` is part of this repository but is not under
`src/`; the token-level syntax below is modelled from the spec (section 4.2),
while the per-rule field extraction mirrors the `match` in `parse_line`. -/

/-- Digit test for grammar `number` tokens. -/
def isDigitB (b : Byte) : Bool := 48 ≤ b && b ≤ 57

/-- Value of a non-empty digit string. -/
def natOfDigits (ds : List Byte) : Nat := ds.foldl (fun a b => a * 10 + (b - 48)) 0

/-- Parse a maximal non-empty run of digits. -/
def parseNum (l : List Byte) : Option (Nat × List Byte) :=
  let ds := l.takeWhile isDigitB
  if ds.isEmpty then none else some (natOfDigits ds, l.dropWhile isDigitB)

/-- Largest `u64`. -/
def u64Max : Nat := 18446744073709551615

/-- Largest `i64` (guard-line numbers are digit-only, hence non-negative). -/
def i64Max : Nat := 9223372036854775807

/-- Parse a digit run that must fit in `u64` (Rust `str::parse::<u64>`). -/
def parseU64 (l : List Byte) : Option (Nat × List Byte) :=
  match parseNum l with
  | some (n, r) => if n ≤ u64Max then some (n, r) else none
  | none => none

/-- Parse a digit run that must fit in `i64` (Rust `str::parse::<i64>`). -/
def parseI64 (l : List Byte) : Option (Nat × List Byte) :=
  match parseNum l with
  | some (n, r) => if n ≤ i64Max then some (n, r) else none
  | none => none

/-- Strip an expected ASCII literal from the front of the line. -/
def stripPre (pre : String) (l : List Byte) : Option (List Byte) :=
  let p := ascii pre
  if l.take p.length = p then some (l.drop p.length) else none

/-- Consume one expected byte. -/
def expectB (b : Byte) : List Byte → Option (List Byte)
  | x :: r => if x = b then some r else none
  | [] => none

/-- Split a grammar `word`: a maximal non-empty run of non-space bytes. -/
def takeWord (l : List Byte) : List Byte × List Byte :=
  (l.takeWhile (fun b => !(b = 32)), l.dropWhile (fun b => !(b = 32)))

/-- Parse the `<i64> <u64> <i64>` tail of a `%begin`/`%end`/`%error` line
(`parse_guard` in mod.rs). -/
def parse_guard (mk : Nat → Nat → Nat → Event) (r : List Byte) : Option Event := do
  let (t, r1) ← parseI64 r
  let r2 ← expectB 32 r1
  let (n, r3) ← parseU64 r2
  let r4 ← expectB 32 r3
  let (f, r5) ← parseI64 r4
  if r5.isEmpty then some (mk t n f) else none

/-- Parse an id tail `<u64>` that must end the line. -/
def parseIdEol (mk : Nat → Event) (r : List Byte) : Option Event := do
  let (n, r1) ← parseU64 r
  if r1.isEmpty then some (mk n) else none

/-- Modelled from the spec: `parse_line` from mod.rs over the line shapes of
section 4.2. The pest grammar file `tmux.pest` is not under `src/`, so the
token-level syntax is taken from the spec; field extraction and the
`unvis`/`unvis_bytes`/verbatim decoding policy mirror the source `match`.
The source first converts the line with `String::from_utf8_lossy`; that
conversion is modelled as the identity (all structural tokens are ASCII). -/
def parse_line (line : List Byte) : Option Event :=
  if let some r := stripPre "%begin " line then parse_guard .Begin r
  else if let some r := stripPre "%end " line then parse_guard .End r
  else if let some r := stripPre "%error " line then parse_guard .Error r
  else if let some r := stripPre "%client-detached " line then
    (let (w, r1) := takeWord r
     if w.isEmpty || !r1.isEmpty then none else
     match unvis w with
     | some name => some (.ClientDetached name)
     | none => none)
  else if let some r := stripPre "%client-session-changed " line then
    (let (w, r1) := takeWord r
     if w.isEmpty then none else do
     let r2 ← stripPre " $" r1
     let (sid, r3) ← parseU64 r2
     let r4 ← expectB 32 r3
     if r4.isEmpty then none else do
     let name ← unvis w
     let sname ← unvis r4
     some (.ClientSessionChanged name sid sname))
  else if let some r := stripPre "%config-error " line then
    (if r.isEmpty then none else (unvis r).map .ConfigError)
  else if let some r := stripPre "%continue %" line then parseIdEol .Continue r
  else if let some r := stripPre "%extended-output %" line then
    (do
      let (p, r1) ← parseU64 r
      let r2 ← expectB 32 r1
      if r2.isEmpty then none else do
      let text ← unvis_bytes r2
      some (.ExtendedOutput p text))
  else if line = ascii "%exit" then some (.Exit none)
  else if let some r := stripPre "%exit " line then
    (if r.isEmpty then none else some (.Exit (some r)))
  else if let some r := stripPre "%layout-change @" line then
    (do
      let (w, r1) ← parseU64 r
      let r2 ← expectB 32 r1
      let (l1, r3) := takeWord r2
      if l1.isEmpty then none else do
      let layout ← unvis l1
      match r3 with
      | [] => some (.LayoutChange w layout none none)
      | _ => do
        let r4 ← expectB 32 r3
        let (l2, r5) := takeWord r4
        if l2.isEmpty then none else
        match r5 with
        | [] => some (.LayoutChange w layout (some l2) none)
        | _ => do
          let r6 ← expectB 32 r5
          let (l3, r7) := takeWord r6
          if l3.isEmpty || !r7.isEmpty then none else
          some (.LayoutChange w layout (some l2) (some l3)))
  else if let some r := stripPre "%message " line then
    (if r.isEmpty then none else (unvis r).map .Message)
  else if let some r := stripPre "%output %" line then
    (do
      let (p, r1) ← parseU64 r
      let r2 ← expectB 32 r1
      if r2.isEmpty then none else do
      let text ← unvis_bytes r2
      some (.Output p text))
  else if let some r := stripPre "%pane-mode-changed %" line then parseIdEol .PaneModeChanged r
  else if let some r := stripPre "%paste-buffer-changed " line then
    (if r.isEmpty then none else (unvis r).map .PasteBufferChanged)
  else if let some r := stripPre "%paste-buffer-deleted " line then
    (if r.isEmpty then none else (unvis r).map .PasteBufferDeleted)
  else if let some r := stripPre "%pause %" line then parseIdEol .Pause r
  else if let some r := stripPre "%session-changed $" line then
    (do
      let (sid, r1) ← parseU64 r
      let r2 ← expectB 32 r1
      let (w, r3) := takeWord r2
      if w.isEmpty || !r3.isEmpty then none else do
      let name ← unvis w
      some (.SessionChanged sid name))
  else if let some r := stripPre "%session-renamed " line then
    (if r.isEmpty then none else (unvis r).map .SessionRenamed)
  else if let some r := stripPre "%session-window-changed $" line then
    (do
      let (sid, r1) ← parseU64 r
      let r2 ← stripPre " @" r1
      parseIdEol (.SessionWindowChanged sid) r2)
  else if line = ascii "%sessions-changed" then some .SessionsChanged
  else if line = ascii "%subscription-changed" then some .SubscriptionChanged
  else if let some _ := stripPre "%subscription-changed " line then some .SubscriptionChanged
  else if let some r := stripPre "%unlinked-window-add @" line then parseIdEol .UnlinkedWindowAdd r
  else if let some r := stripPre "%unlinked-window-close @" line then parseIdEol .UnlinkedWindowClose r
  else if let some r := stripPre "%unlinked-window-renamed @" line then parseIdEol .UnlinkedWindowRenamed r
  else if let some r := stripPre "%window-add @" line then parseIdEol .WindowAdd r
  else if let some r := stripPre "%window-close @" line then parseIdEol .WindowClose r
  else if let some r := stripPre "%window-pane-changed @" line then
    (do
      let (w, r1) ← parseU64 r
      let r2 ← stripPre " %" r1
      parseIdEol (.WindowPaneChanged w) r2)
  else if let some r := stripPre "%window-renamed @" line then
    (do
      let (w, r1) ← parseU64 r
      let r2 ← expectB 32 r1
      if r2.isEmpty then none else do
      let name ← unvis r2
      some (.WindowRenamed w name))
  else none

/-! ## The feeder (`Parser` in mod.rs) -/

/-- Errors surfaced by the feeder. The source renders them as strings; the model
keeps them structured: `line msg` is `process_line`'s `bail!` carrying the
offending line bytes, `utf8 buf` is the `std::str::from_utf8` failure in
`process_guarded_line`, `missingBegun` the `format_err!("missing begun")` path. -/
inductive FeedErr where
  | line (msg : List Byte)
  | utf8 (buf : List Byte)
  | missingBegun
deriving DecidableEq, Repr

/-- The incremental feeder state (`struct Parser` in mod.rs). -/
structure Parser where
  buffer : List Byte
  begun : Option Guarded
deriving DecidableEq, Repr

/-- `Parser::new`. -/
def Parser.new : Parser := ⟨[], none⟩

/-- Strip one trailing carriage return (the `if self.buffer.last() == Some(&b'\r')`
pop in `process_line`). -/
def stripCR (l : List Byte) : List Byte :=
  if l.getLast? = some 13 then l.dropLast else l

/-- `Parser::process_guarded_line`: validate the buffered line as UTF-8, then
classify it against the open block. Mirrors the source `match` exactly,
including `self.begun.take()` dropping the block on a mismatched terminator. -/
def Parser.process_guarded_line (self : Parser) : Except FeedErr (Option Event × Parser) :=
  if !validUtf8 self.buffer then .error (.utf8 self.buffer)
  else
    match parse_line self.buffer with
    | some (.End t n f) =>
      match self.begun with
      | some begun =>
        if begun.timestamp = t ∧ begun.number = n ∧ begun.flags = f then
          .ok (some (.Guarded begun), ⟨[], none⟩)
        else
          .ok (none, ⟨[], none⟩)
      | none => .ok (none, ⟨[], none⟩)
    | some (.Error t n f) =>
      match self.begun with
      | some begun =>
        if begun.timestamp = t ∧ begun.number = n ∧ begun.flags = f then
          .ok (some (.Guarded { begun with error := true }), ⟨[], none⟩)
        else
          .ok (none, ⟨[], none⟩)
      | none => .ok (none, ⟨[], none⟩)
    | _ =>
      match self.begun with
      | some begun =>
        .ok (none, ⟨[], some { begun with output := begun.output ++ self.buffer ++ [10] }⟩)
      | none => .error .missingBegun

/-- `Parser::process_line`: strip a trailing CR, delegate to the guarded path when
a block is open, else dispatch the parsed line. A parsed `Begin` opens a block
and emits nothing; any other parsed event is emitted; a parse failure is the
`bail!` carrying the line. -/
def Parser.process_line (self : Parser) : Except FeedErr (Option Event × Parser) :=
  if self.begun.isSome then
    Parser.process_guarded_line ⟨stripCR self.buffer, self.begun⟩
  else
    match parse_line (stripCR self.buffer) with
    | some (.Begin t n f) => .ok (none, ⟨[], some ⟨false, t, n, f, []⟩⟩)
    | some ev => .ok (some ev, ⟨[], self.begun⟩)
    | none => .error (.line (stripCR self.buffer))

/-- `Parser::advance_byte`: a newline dispatches the buffered line, any other byte
is appended to the buffer. -/
def Parser.advance_byte (self : Parser) (c : Byte) : Except FeedErr (Option Event × Parser) :=
  if c = 10 then self.process_line
  else .ok (none, ⟨self.buffer ++ [c], self.begun⟩)

/-- `Parser::advance_bytes`: feed each byte in order, collecting events; on error,
fail the whole call pairing the error with every byte from the failing position
on (the source appends `String::from_utf8_lossy(&bytes[i..])` to the message). -/
def Parser.advance_bytes (self : Parser) (bytes : List Byte) :
    Except (FeedErr × List Byte) (List Event × Parser) :=
  match bytes with
  | [] => .ok ([], self)
  | b :: bs =>
    match self.advance_byte b with
    | .error e => .error (e, b :: bs)
    | .ok (none, st) => st.advance_bytes bs
    | .ok (some ev, st) =>
      match st.advance_bytes bs with
      | .error e => .error e
      | .ok (evs, st2) => .ok (ev :: evs, st2)

/-- Byte sequence of an arbitrary string (UTF-8), for `advance_string`. -/
def strBytes (s : String) : List Byte := s.toUTF8.toList.map UInt8.toNat

/-- `Parser::advance_string`: convenience over the UTF-8 bytes of a string. -/
def Parser.advance_string (self : Parser) (s : String) :
    Except (FeedErr × List Byte) (List Event × Parser) :=
  self.advance_bytes (strBytes s)

/-! ## The layout parser (`parse_layout` / `parse_layout_inner` in mod.rs) -/

/-- `PaneLayout` from mod.rs. -/
structure PaneLayout where
  pane_id : Nat
  pane_width : Nat
  pane_height : Nat
  pane_left : Nat
  pane_top : Nat
deriving DecidableEq, Repr

/-- `WindowLayout` from mod.rs. -/
inductive WindowLayout where
  | SplitVertical (panes : List PaneLayout)
  | SplitHorizontal (panes : List PaneLayout)
  | SinglePane (p : PaneLayout)
deriving DecidableEq, Repr

/-- The pest parse tree of a layout string: a leaf pane (`layout_pane`), or a
split (`layout_split_horizontal` / `layout_split_vertical`) whose header
geometry is the `layout_split_pane` and whose children follow in order.
Interior nodes omit the `,id` suffix, so their header `pane_id` is 0
(the `None => 0` branch of `parse_layout_pane`). -/
inductive LayoutTree where
  | leaf (p : PaneLayout)
  | hsplit (hdr : PaneLayout) (children : List LayoutTree)
  | vsplit (hdr : PaneLayout) (children : List LayoutTree)

/-- Hexadecimal digit test (for the layout checksum prefix). -/
def isHexB (b : Byte) : Bool :=
  isDigitB b || (97 ≤ b && b ≤ 102) || (65 ≤ b && b ≤ 70)

/-- Modelled from the spec: a layout string may carry a leading checksum prefix
(for example `b25d,`) which the grammar accepts and discards. -/
def skipChecksum (l : List Byte) : List Byte :=
  match l with
  | a :: b :: c :: d :: 44 :: r =>
    if isHexB a && isHexB b && isHexB c && isHexB d then r else l
  | _ => l

mutual
/-- Modelled from the spec: the layout grammar (the pest file `tmux.pest` is not
under `src/`). A node is `WIDTHxHEIGHT,LEFT,TOP` followed by `{children}` for a
horizontal split, `[children]` for a vertical split, or an optional `,PANE_ID`
for a leaf; the optional id is committed greedily, as a PEG `("," ~ number)?`
would. The fuel only bounds recursion depth. -/
def parseLayoutNode : Nat → List Byte → Option (LayoutTree × List Byte)
  | 0, _ => none
  | fuel+1, l => do
    let (w, r1) ← parseU64 l
    let r2 ← expectB 120 r1
    let (h, r3) ← parseU64 r2
    let r4 ← expectB 44 r3
    let (left, r5) ← parseU64 r4
    let r6 ← expectB 44 r5
    let (top, r7) ← parseU64 r6
    match r7 with
    | 123 :: r8 => do
      let (cs, r9) ← parseLayoutList fuel r8 125
      some (.hsplit ⟨0, w, h, left, top⟩ cs, r9)
    | 91 :: r8 => do
      let (cs, r9) ← parseLayoutList fuel r8 93
      some (.vsplit ⟨0, w, h, left, top⟩ cs, r9)
    | 44 :: r8 =>
      match parseU64 r8 with
      | some (pid, r9) => some (.leaf ⟨pid, w, h, left, top⟩, r9)
      | none => some (.leaf ⟨0, w, h, left, top⟩, 44 :: r8)
    | _ => some (.leaf ⟨0, w, h, left, top⟩, r7)

/-- Modelled from the spec: a comma-separated list of layout nodes terminated by
the split's closing bracket `closer`. -/
def parseLayoutList : Nat → List Byte → Byte → Option (List LayoutTree × List Byte)
  | 0, _, _ => none
  | fuel+1, l, closer => do
    let (t, r) ← parseLayoutNode fuel l
    match r with
    | c :: r1 =>
      if c = closer then some ([t], r1)
      else if c = 44 then do
        let (ts, r2) ← parseLayoutList fuel r1 closer
        some (t :: ts, r2)
      else none
    | [] => none
end

/-- Modelled from the spec: parse a whole layout string (`Rule::layout_window`):
optional checksum prefix, then exactly one root node consuming the rest. -/
def parse_layout_str (s : List Byte) : Option LayoutTree :=
  let l := skipChecksum s
  match parseLayoutNode (l.length + 1) l with
  | some (t, []) => some t
  | _ => none

/-- `parse_layout_inner` from mod.rs, over the parse tree. The `result`
accumulator is the `&mut Vec<WindowLayout>` (entries are prepended with
`insert(0, …)`, the synthetic flag entry is appended with `push`), and the
returned list is the local `stack` of pane records. A split parses its header,
recurses into its children, pops the last child pane to steal its `pane_id`,
and prepends the patched header to the remaining children. The fuel only
bounds recursion depth (`sizeOf` of the forest suffices, see
`parse_layout_inner_eval`). -/
def parse_layout_inner : Nat → List LayoutTree → List WindowLayout → List PaneLayout →
    Except Unit (List WindowLayout × List PaneLayout)
  | _, [], result, stack => .ok (result, stack)
  | 0, _ :: _, _, _ => .error ()
  | fuel+1, .leaf p :: rest, result, stack =>
    if result.isEmpty then .ok ([.SinglePane p], stack)
    else parse_layout_inner fuel rest result (stack ++ [p])
  | fuel+1, .hsplit hdr cs :: rest, result, stack =>
    let result1 := if result.isEmpty then result ++ [.SplitHorizontal []] else result
    match parse_layout_inner fuel cs result1 [] with
    | .error e => .error e
    | .ok (result2, inner) =>
      match inner.getLast? with
      | none => .error ()
      | some last =>
        parse_layout_inner fuel rest
          (.SplitHorizontal ({ hdr with pane_id := last.pane_id } :: inner.dropLast) :: result2)
          (stack ++ [{ hdr with pane_id := last.pane_id }])
  | fuel+1, .vsplit hdr cs :: rest, result, stack =>
    let result1 := if result.isEmpty then result ++ [.SplitHorizontal []] else result
    match parse_layout_inner fuel cs result1 [] with
    | .error e => .error e
    | .ok (result2, inner) =>
      match inner.getLast? with
      | none => .error ()
      | some last =>
        parse_layout_inner fuel rest
          (.SplitVertical ({ hdr with pane_id := last.pane_id } :: inner.dropLast) :: result2)
          (stack ++ [{ hdr with pane_id := last.pane_id }])

mutual
/-- Structural size of a layout tree, used as recursion fuel. -/
def treeSize : LayoutTree → Nat
  | .leaf _ => 1
  | .hsplit _ cs => 1 + forestSize cs
  | .vsplit _ cs => 1 + forestSize cs
/-- Structural size of a layout forest, used as recursion fuel. -/
def forestSize : List LayoutTree → Nat
  | [] => 1
  | t :: ts => 1 + treeSize t + forestSize ts
end

/-- Run `parse_layout_inner` on the root forest with empty accumulators and pop
the trailing synthetic entry when more than one entry remains (the tail of
`parse_layout` in mod.rs). -/
def parse_layout_tree (root : LayoutTree) : Except Unit (List WindowLayout) :=
  match parse_layout_inner (forestSize [root]) [root] [] [] with
  | .error e => .error e
  | .ok (result, _) => .ok (if result.length > 1 then result.dropLast else result)

/-- `parse_layout` from mod.rs: pest-parse the layout string, then flatten the
tree with `parse_layout_inner`. -/
def parse_layout (s : List Byte) : Except Unit (List WindowLayout) :=
  match parse_layout_str s with
  | none => .error ()
  | some root => parse_layout_tree root

mutual
/-- Specification-level description of one layout node: the pane record that
represents the node in its parent's list (for a split, the header with
`pane_id` copied from the last child), and the split entries the node
contributes. A split entry lists the patched header followed by the node panes
of all children except the last (whose id lives on in the header). -/
def nodeResult : LayoutTree → Except Unit (PaneLayout × List WindowLayout)
  | .leaf p => .ok (p, [])
  | .hsplit hdr cs =>
    match listResults cs with
    | .error e => .error e
    | .ok (ps, es) =>
      match ps.getLast? with
      | none => .error ()
      | some last =>
        .ok ({ hdr with pane_id := last.pane_id },
          .SplitHorizontal ({ hdr with pane_id := last.pane_id } :: ps.dropLast) :: es)
  | .vsplit hdr cs =>
    match listResults cs with
    | .error e => .error e
    | .ok (ps, es) =>
      match ps.getLast? with
      | none => .error ()
      | some last =>
        .ok ({ hdr with pane_id := last.pane_id },
          .SplitVertical ({ hdr with pane_id := last.pane_id } :: ps.dropLast) :: es)
termination_by t => sizeOf t

/-- Specification-level description of a forest: node panes in order, and the
accumulated split entries (a later sibling's entries precede an earlier
sibling's, matching the `insert(0, …)` accumulation of the source). -/
def listResults : List LayoutTree → Except Unit (List PaneLayout × List WindowLayout)
  | [] => .ok ([], [])
  | t :: rest =>
    match nodeResult t with
    | .error e => .error e
    | .ok (p, es) =>
      match listResults rest with
      | .error e => .error e
      | .ok (ps, ess) => .ok (p :: ps, ess ++ es)
termination_by ts => sizeOf ts
end

/-- Specification-level contract for `parse_layout` on a parse tree: a single
leaf yields `[SinglePane]`; a split root yields exactly its split entries. -/
def layoutSpec (root : LayoutTree) : Except Unit (List WindowLayout) :=
  match root with
  | .leaf p => .ok [.SinglePane p]
  | _ =>
    match nodeResult root with
    | .error e => .error e
    | .ok (_, es) => .ok es

/-! ## Feeder lemmas -/

/-- Feeding a concatenation composes: events accumulate across the split, an
error in the first chunk keeps the second chunk appended to its unconsumed
bytes, an error in the second chunk is reported as-is. -/
theorem advance_bytes_append (a : List Byte) : ∀ (st : Parser) (b : List Byte),
    st.advance_bytes (a ++ b) =
      match st.advance_bytes a with
      | .error (e, rest) => .error (e, rest ++ b)
      | .ok (e1, st1) =>
        match st1.advance_bytes b with
        | .error e => .error e
        | .ok (e2, st2) => .ok (e1 ++ e2, st2) := by
  induction a with
  | nil =>
    intro st b
    rcases h : st.advance_bytes b with ⟨e, rest⟩ | ⟨e2, st2⟩ <;>
      simp [Parser.advance_bytes, h]
  | cons x xs ih =>
    intro st b
    rcases hb : st.advance_byte x with e | ⟨oev, st1⟩
    · simp [Parser.advance_bytes, hb]
    · rcases oev with _ | ev
      · have h2 := ih st1 b
        simp [Parser.advance_bytes, hb, h2]
      · have h2 := ih st1 b
        rcases hxs : st1.advance_bytes xs with ⟨e, rest⟩ | ⟨e1, st1'⟩
        · rw [hxs] at h2
          simp [Parser.advance_bytes, hb, h2, hxs]
        · rw [hxs] at h2
          dsimp only at h2
          rcases hb2 : st1'.advance_bytes b with ⟨e2, rest2⟩ | ⟨e2, st2⟩ <;>
          · rw [hb2] at h2
            simp [Parser.advance_bytes, hb, h2, hxs, hb2]

/-- Bytes without a newline are only buffered: no events, no errors, no change
to the open block. -/
theorem advance_bytes_buffer (l : List Byte) : ∀ (st : Parser) (tail : List Byte),
    10 ∉ l →
    st.advance_bytes (l ++ tail) =
      Parser.advance_bytes ⟨st.buffer ++ l, st.begun⟩ tail := by
  induction l with
  | nil => intro st tail _; simp
  | cons x xs ih =>
    intro st tail hx
    have hx10 : ¬(x = 10) := fun h => hx (h ▸ List.mem_cons_self x xs)
    have hxs : 10 ∉ xs := fun h => hx (List.mem_cons_of_mem x h)
    have step := ih ⟨st.buffer ++ [x], st.begun⟩ tail hxs
    simp only [List.cons_append, Parser.advance_bytes, Parser.advance_byte, if_neg hx10,
      List.append_eq] at step ⊢
    rw [step]
    simp

/-- Any event emitted by the guarded-line path is a `Guarded` event. -/
theorem process_guarded_line_shape (self : Parser) (oev : Option Event) (st' : Parser)
    (h : self.process_guarded_line = .ok (oev, st')) :
    oev = none ∨ ∃ g, oev = some (.Guarded g) := by
  unfold Parser.process_guarded_line at h
  repeat' split at h
  all_goals (try simp_all)
  all_goals obtain ⟨h1, -⟩ := h
  all_goals exact Or.inr ⟨_, h1.symm⟩

/-- A single fed byte never produces a raw `Begin` event. -/
theorem advance_byte_no_begin (st : Parser) (b : Byte) (ev : Event) (st' : Parser)
    (h : st.advance_byte b = .ok (some ev, st')) (t n f : Nat) : ev ≠ .Begin t n f := by
  unfold Parser.advance_byte at h
  split at h
  · unfold Parser.process_line at h
    split at h
    · rcases process_guarded_line_shape _ _ _ h with h1 | ⟨g, h1⟩
      · cases h1
      · intro hc
        subst hc
        simp at h1
    · split at h
      · simp at h
      · rename_i ev1 hne heq
        simp only [Except.ok.injEq, Prod.mk.injEq, Option.some.injEq] at h
        intro hc
        exact hne t n f (by rw [h.1, hc])
      · simp at h
  · simp at h

/-- No run of the feeder ever returns a raw `Begin` event. -/
theorem advance_bytes_no_begin (bytes : List Byte) : ∀ (st : Parser) (evs : List Event)
    (st' : Parser), st.advance_bytes bytes = .ok (evs, st') →
    ∀ t n f, Event.Begin t n f ∉ evs := by
  induction bytes with
  | nil =>
    intro st evs st' h t n f
    simp only [Parser.advance_bytes, Except.ok.injEq, Prod.mk.injEq] at h
    rw [← h.1]
    simp
  | cons b bs ih =>
    intro st evs st' h t n f
    simp only [Parser.advance_bytes] at h
    rcases hb : st.advance_byte b with e | ⟨oev, st1⟩
    · rw [hb] at h
      exact absurd h (by simp)
    · rw [hb] at h
      rcases oev with _ | ev
      · exact ih st1 evs st' h t n f
      · dsimp only at h
        rcases hbs : st1.advance_bytes bs with e | ⟨evs1, st2⟩
        · rw [hbs] at h
          exact absurd h (by simp)
        · rw [hbs] at h
          dsimp only at h
          simp only [Except.ok.injEq, Prod.mk.injEq] at h
          rw [← h.1]
          intro hmem
          rcases List.mem_cons.mp hmem with hh | hh
          · exact advance_byte_no_begin st b ev st1 hb t n f hh.symm
          · exact ih st1 evs1 st2 hbs t n f hh

/-- Feeding one complete line from a clean buffer: the line is dispatched by
`process_line` and the run continues (or the whole call fails, pairing the
error with the newline and everything after it). -/
theorem advance_bytes_line (line : List Byte) (hl : 10 ∉ line) (bg : Option Guarded)
    (rest : List Byte) :
    Parser.advance_bytes ⟨[], bg⟩ (line ++ 10 :: rest) =
      match Parser.process_line ⟨line, bg⟩ with
      | .error e => .error (e, 10 :: rest)
      | .ok (none, st1) => st1.advance_bytes rest
      | .ok (some ev, st1) =>
        match st1.advance_bytes rest with
        | .error e => .error e
        | .ok (evs, st2) => .ok (ev :: evs, st2) := by
  rw [advance_bytes_buffer line ⟨[], bg⟩ (10 :: rest) hl]
  simp only [List.nil_append]
  have h10 : Parser.advance_byte ⟨line, bg⟩ 10 = Parser.process_line ⟨line, bg⟩ := by
    simp [Parser.advance_byte]
  rcases hp : Parser.process_line ⟨line, bg⟩ with e | ⟨oev, st1⟩
  · simp only [Parser.advance_bytes, h10, hp]
  · rcases oev with _ | ev <;> simp only [Parser.advance_bytes, h10, hp]

/-- Stripping the carriage return: a buffer extended with a CR is processed like
the bare buffer when the latter does not itself end in CR. -/
theorem process_line_crlf (B : List Byte) (bg : Option Guarded) (h : B.getLast? ≠ some 13) :
    Parser.process_line ⟨B ++ [13], bg⟩ = Parser.process_line ⟨B, bg⟩ := by
  have hs : stripCR (B ++ [13]) = B := by
    simp [stripCR]
  have hs2 : stripCR B = B := by
    simp [stripCR, h]
  unfold Parser.process_line
  dsimp only
  rw [hs, hs2]

/-! ## Claim theorems -/

/-- C1 counterexample: an `%end` line arriving while no guarded block is open is
not ignored; the raw `End` event is returned to the caller. -/
theorem raw_end_leaks :
    Parser.new.advance_bytes (ascii "%end 1 2 3\n") = .ok ([Event.End 1 2 3], Parser.new) ∧
    ([Event.End 1 2 3] : List Event) ≠ [] := by
  exact ⟨rfl, by decide⟩

/-- C1 (amended): the feeder never returns a raw `Begin` event, but an `%end`
(or `%error`) line arriving while no guarded block is open is returned as a raw
`End`/`Error` event rather than being ignored. -/
theorem no_raw_begin_and_end_passthrough :
    (∀ (st : Parser) (bytes : List Byte) (evs : List Event) (st' : Parser),
      st.advance_bytes bytes = .ok (evs, st') → ∀ t n f, Event.Begin t n f ∉ evs) ∧
    Parser.new.advance_bytes (ascii "%end 1 2 3\n") = .ok ([Event.End 1 2 3], Parser.new) ∧
    Parser.new.advance_bytes (ascii "%error 1 2 3\n") = .ok ([Event.Error 1 2 3], Parser.new) := by
  refine ⟨fun st bytes evs st' h => advance_bytes_no_begin bytes st evs st' h, rfl, rfl⟩

/-- C1 witness: the no-`Begin` invariant applied to a concrete run. -/
theorem no_raw_begin_witness : Event.Begin 1 2 3 ∉ [Event.End 1 2 3] :=
  no_raw_begin_and_end_passthrough.1 Parser.new (ascii "%end 1 2 3\n") [Event.End 1 2 3]
    Parser.new no_raw_begin_and_end_passthrough.2.1 1 2 3

/-- C2: when neither call errors, feeding `a ++ b` to a fresh parser produces
exactly the events of feeding `a` and then `b` in two `advance_bytes` calls. -/
theorem streaming_equals_chunked (a b : List Byte) (e1 e2 : List Event) (st1 st2 : Parser)
    (h1 : Parser.new.advance_bytes a = .ok (e1, st1))
    (h2 : st1.advance_bytes b = .ok (e2, st2)) :
    Parser.new.advance_bytes (a ++ b) = .ok (e1 ++ e2, st2) := by
  rw [advance_bytes_append a Parser.new b, h1]
  dsimp only
  rw [h2]

/-- C2 witness: a line split across two `advance_bytes` calls. -/
theorem streaming_equals_chunked_witness :
    Parser.new.advance_bytes (ascii "%sessions-ch" ++ ascii "anged\n%exit\n") =
      .ok (([] : List Event) ++ [Event.SessionsChanged, Event.Exit none], Parser.new) :=
  streaming_equals_chunked (ascii "%sessions-ch") (ascii "anged\n%exit\n")
    [] [Event.SessionsChanged, Event.Exit none] ⟨ascii "%sessions-ch", none⟩ Parser.new
    rfl rfl

/-- One-step characterization of feeding a single newline. -/
theorem advance_bytes_single (st : Parser) :
    st.advance_bytes [10] =
      match st.process_line with
      | .error e => .error (e, [10])
      | .ok (none, st1) => .ok ([], st1)
      | .ok (some ev, st1) => .ok ([ev], st1) := by
  have h10 : st.advance_byte 10 = st.process_line := by simp [Parser.advance_byte]
  rcases hp : st.process_line with e | ⟨oev, st1⟩
  · simp only [Parser.advance_bytes, h10, hp]
  · rcases oev with _ | ev <;> simp only [Parser.advance_bytes, h10, hp]

/-- C9 counterexample: with an open guarded block, feeding the line `[CR]`
terminated by `CR LF` keeps the first `CR` as payload, while terminating it by
`LF` strips it, so the two runs leave the parser in different states. -/
theorem crlf_line_ending_in_cr :
    Parser.advance_bytes ⟨[], some ⟨false, 1, 2, 3, []⟩⟩ ([13] ++ [13, 10]) =
      .ok ([], ⟨[], some ⟨false, 1, 2, 3, [13, 10]⟩⟩) ∧
    Parser.advance_bytes ⟨[], some ⟨false, 1, 2, 3, []⟩⟩ ([13] ++ [10]) =
      .ok ([], ⟨[], some ⟨false, 1, 2, 3, [10]⟩⟩) ∧
    (⟨[], some ⟨false, 1, 2, 3, [13, 10]⟩⟩ : Parser) ≠ ⟨[], some ⟨false, 1, 2, 3, [10]⟩⟩ :=
  ⟨rfl, rfl, by decide⟩

/-- C9 (amended): for a line that does not itself end in CR (relative to the
pending buffer), terminating it with `CR LF` is identical to terminating it
with `LF`: only the CR immediately before the terminating LF is stripped. -/
theorem crlf_equals_lf (st : Parser) (line : List Byte) (hl : 10 ∉ line)
    (hcr : (st.buffer ++ line).getLast? ≠ some 13) :
    st.advance_bytes (line ++ [13, 10]) = st.advance_bytes (line ++ [10]) := by
  have h13 : (10 : Byte) ∉ line ++ [13] := by
    intro hm
    rcases List.mem_append.mp hm with hm | hm
    · exact hl hm
    · simp at hm
  have e1 : line ++ [13, 10] = (line ++ [13]) ++ [10] := by simp
  rw [e1, advance_bytes_buffer (line ++ [13]) st [10] h13,
      advance_bytes_buffer line st [10] hl]
  have hb : st.buffer ++ (line ++ [13]) = (st.buffer ++ line) ++ [13] := by simp
  rw [hb, advance_bytes_single, advance_bytes_single,
      process_line_crlf (st.buffer ++ line) st.begun hcr]

/-- C9 witness: `CR LF` and `LF` termination agree on a concrete line. -/
theorem crlf_equals_lf_witness :
    Parser.new.advance_bytes (ascii "%sessions-changed" ++ [13, 10]) =
      Parser.new.advance_bytes (ascii "%sessions-changed" ++ [10]) :=
  crlf_equals_lf Parser.new (ascii "%sessions-changed") (by decide) (by decide)

/-- C8: a line that fails to parse while no guarded block is open fails the
whole `advance_bytes` call, reporting the offending (CR-stripped) line together
with every byte from the newline on that was not yet consumed. -/
theorem parse_failure_aborts (pre line rest : List Byte) (evs : List Event)
    (hpre : Parser.new.advance_bytes pre = .ok (evs, ⟨[], none⟩))
    (hl : 10 ∉ line)
    (hfail : parse_line (stripCR line) = none) :
    Parser.new.advance_bytes (pre ++ (line ++ 10 :: rest)) =
      .error (.line (stripCR line), 10 :: rest) := by
  rw [advance_bytes_append pre Parser.new (line ++ 10 :: rest), hpre]
  dsimp only
  rw [advance_bytes_line line hl none rest]
  have hpl : Parser.process_line ⟨line, none⟩ = .error (.line (stripCR line)) := by
    unfold Parser.process_line
    simp [hfail]
  rw [hpl]

/-- C8 witness: an unknown line aborts the call with the line and the tail. -/
theorem parse_failure_aborts_witness :
    Parser.new.advance_bytes (ascii "%sessions-changed\n" ++ (ascii "bogus" ++ 10 :: ascii "tail")) =
      .error (.line (stripCR (ascii "bogus")), 10 :: ascii "tail") :=
  parse_failure_aborts (ascii "%sessions-changed\n") (ascii "bogus") (ascii "tail")
    [Event.SessionsChanged] rfl (by decide) rfl

/-- C10: while a guarded block is open, a consumed line whose (CR-stripped)
bytes are not valid UTF-8 makes the whole call fail with the UTF-8 error
instead of appending the line to the block's output. -/
theorem guarded_line_must_be_utf8 (g : Guarded) (line rest : List Byte) (hl : 10 ∉ line)
    (hbad : validUtf8 (stripCR line) = false) :
    Parser.advance_bytes ⟨[], some g⟩ (line ++ 10 :: rest) =
      .error (.utf8 (stripCR line), 10 :: rest) := by
  rw [advance_bytes_line line hl (some g) rest]
  have hpl : Parser.process_line ⟨line, some g⟩ = .error (.utf8 (stripCR line)) := by
    unfold Parser.process_line
    rw [if_pos (by simp)]
    unfold Parser.process_guarded_line
    simp [hbad]
  rw [hpl]

/-- C10 witness: the invalid byte `0xFF` as a guarded body line aborts the call. -/
theorem guarded_line_must_be_utf8_witness :
    Parser.advance_bytes ⟨[], some ⟨false, 1, 2, 3, []⟩⟩ ([255] ++ 10 :: []) =
      .error (.utf8 (stripCR [255]), 10 :: []) :=
  guarded_line_must_be_utf8 ⟨false, 1, 2, 3, []⟩ [255] [] (by decide) (by decide)

/-- C3 counterexample: after `%begin 1 2 3` and a stray `%end 9 9 9`, the block
is gone — the later matching `%end 1 2 3` is returned as a raw `End` event and
no `Guarded` event is ever emitted. -/
theorem stray_terminator_counterexample :
    Parser.new.advance_bytes (ascii "%begin 1 2 3\n%end 9 9 9\n%end 1 2 3\n") =
      .ok ([Event.End 1 2 3], Parser.new) ∧
    Event.Guarded ⟨false, 1, 2, 3, []⟩ ∉ [Event.End 1 2 3] :=
  ⟨rfl, by decide⟩

/-- C3 (amended): an `%end`/`%error` whose `(timestamp, number, flags)` does not
match the open `%begin` closes and drops the block: nothing is emitted for it,
the accumulated output is discarded, and parsing continues with no open block. -/
theorem stray_terminator_drops_block (g : Guarded) (line rest : List Byte) (t n f : Nat)
    (hl : 10 ∉ line) (hutf : validUtf8 (stripCR line) = true)
    (hparse : parse_line (stripCR line) = some (.End t n f) ∨
              parse_line (stripCR line) = some (.Error t n f))
    (hmis : ¬(g.timestamp = t ∧ g.number = n ∧ g.flags = f)) :
    Parser.advance_bytes ⟨[], some g⟩ (line ++ 10 :: rest) =
      Parser.advance_bytes ⟨[], none⟩ rest := by
  rw [advance_bytes_line line hl (some g) rest]
  have hpl : Parser.process_line ⟨line, some g⟩ = .ok (none, ⟨[], none⟩) := by
    unfold Parser.process_line
    rw [if_pos (by simp)]
    unfold Parser.process_guarded_line
    rcases hparse with hp | hp <;> simp [hp, hmis, hutf]
  rw [hpl]

/-- C3 witness: a stray `%end 9 9 9` against an open `(1, 2, 3)` block drops the
block and its accumulated output. -/
theorem stray_terminator_drops_block_witness :
    Parser.advance_bytes ⟨[], some ⟨false, 1, 2, 3, ascii "kept\n"⟩⟩
        (ascii "%end 9 9 9" ++ 10 :: []) =
      Parser.advance_bytes ⟨[], none⟩ [] :=
  stray_terminator_drops_block ⟨false, 1, 2, 3, ascii "kept\n"⟩ (ascii "%end 9 9 9") [] 9 9 9
    (by decide) (by decide) (Or.inl rfl) (by decide)

/-- C4 counterexample: a `%begin 4 5 6` consumed while block `(1, 2, 3)` is open
does not replace the block; it is appended to the old block's output as a body
line, so the resulting state differs from the claimed fresh `(4, 5, 6)` record. -/
theorem begin_while_open_counterexample :
    Parser.new.advance_bytes (ascii "%begin 1 2 3\n%begin 4 5 6\n") =
      .ok ([], ⟨[], some ⟨false, 1, 2, 3, ascii "%begin 4 5 6\n"⟩⟩) ∧
    some (⟨false, 1, 2, 3, ascii "%begin 4 5 6\n"⟩ : Guarded) ≠
      some (⟨false, 4, 5, 6, []⟩ : Guarded) :=
  ⟨rfl, by decide⟩

/-- C4 (amended): a `%begin` line consumed while a guarded block is open is
treated as a body line of the open block — the old block stays open with the
`%begin` line (plus newline) appended to its output, and no new record is
opened. -/
theorem begin_while_open_is_body (g : Guarded) (line rest : List Byte) (t n f : Nat)
    (hl : 10 ∉ line) (hutf : validUtf8 (stripCR line) = true)
    (hparse : parse_line (stripCR line) = some (.Begin t n f)) :
    Parser.advance_bytes ⟨[], some g⟩ (line ++ 10 :: rest) =
      Parser.advance_bytes ⟨[], some { g with output := g.output ++ stripCR line ++ [10] }⟩
        rest := by
  rw [advance_bytes_line line hl (some g) rest]
  have hpl : Parser.process_line ⟨line, some g⟩ =
      .ok (none, ⟨[], some { g with output := g.output ++ stripCR line ++ [10] }⟩) := by
    unfold Parser.process_line
    rw [if_pos (by simp)]
    unfold Parser.process_guarded_line
    simp [hparse, hutf]
  rw [hpl]

/-- C4 witness: `%begin 4 5 6` while `(1, 2, 3)` is open becomes body text. -/
theorem begin_while_open_is_body_witness :
    Parser.advance_bytes ⟨[], some ⟨false, 1, 2, 3, []⟩⟩ (ascii "%begin 4 5 6" ++ 10 :: []) =
      Parser.advance_bytes
        ⟨[], some { (⟨false, 1, 2, 3, []⟩ : Guarded) with
          output := ([] : List Byte) ++ stripCR (ascii "%begin 4 5 6") ++ [10] }⟩ [] :=
  begin_while_open_is_body ⟨false, 1, 2, 3, []⟩ (ascii "%begin 4 5 6") [] 4 5 6
    (by decide) (by decide) rfl

/-- C7: a one- or two-digit octal escape terminated by a non-octal byte emits
the value accumulated so far and requests a single reprocessing of the
terminating byte in `Ground`; a `Ground` step never requests reprocessing, so
the driver touches each input byte at most twice. -/
theorem octal_early_termination (prior b : Byte) (h : is_octal b = false) :
    unvis_byte b (.Octal2 prior) = some (.Ground, [prior], true) ∧
    unvis_byte b (.Octal3 prior) = some (.Ground, [prior], true) ∧
    ∀ r, unvis_byte b .Ground = some r → r.2.2 = false := by
  refine ⟨by simp [unvis_byte, h], by simp [unvis_byte, h], ?_⟩
  intro r hr
  by_cases hb : b = 92 <;> simp [unvis_byte, hb] at hr <;> simp [← hr]

/-- C7 witness: terminating `\5` with the non-octal byte `A`. -/
theorem octal_early_termination_witness :
    is_octal 65 = false ∧ unvis_byte 65 (.Octal2 5) = some (.Ground, [5], true) :=
  ⟨by decide, (octal_early_termination 5 65 (by decide)).1⟩

/-! ## Layout lemmas -/

/-- Trees have positive size. -/
theorem treeSize_pos (t : LayoutTree) : 1 ≤ treeSize t := by
  cases t <;> simp [treeSize]

/-- Forests have positive size. -/
theorem forestSize_pos (ts : List LayoutTree) : 1 ≤ forestSize ts := by
  cases ts with
  | nil => simp [forestSize]
  | cons t rest => simp only [forestSize]; omega

/-- With sufficient fuel and a non-empty `result` accumulator (so neither the
`SinglePane` shortcut nor the synthetic flag entry fires), `parse_layout_inner`
computes exactly the specification-level `listResults`: the entries are
prepended to `result` and the node panes are appended to `stack`. -/
theorem parse_layout_inner_eval (fuel : Nat) : ∀ (ts : List LayoutTree)
    (result : List WindowLayout) (stack : List PaneLayout),
    forestSize ts ≤ fuel → result ≠ [] →
    parse_layout_inner fuel ts result stack =
      match listResults ts with
      | .error e => .error e
      | .ok (ps, es) => .ok (es ++ result, stack ++ ps) := by
  induction fuel with
  | zero =>
    intro ts result stack hf hr
    exact absurd hf (by have := forestSize_pos ts; omega)
  | succ f ih =>
    intro ts result stack hf hr
    rcases result with _ | ⟨r0, rs⟩
    · exact absurd rfl hr
    rcases ts with _ | ⟨t, rest⟩
    · simp [parse_layout_inner, listResults]
    rcases t with p | ⟨hdr, cs⟩ | ⟨hdr, cs⟩
    · have hsz : forestSize (LayoutTree.leaf p :: rest) =
          1 + treeSize (LayoutTree.leaf p) + forestSize rest := by simp [forestSize]
      have ht : treeSize (LayoutTree.leaf p) = 1 := by simp [treeSize]
      have hrest : forestSize rest ≤ f := by omega
      simp only [parse_layout_inner, List.isEmpty_cons, Bool.false_eq_true, if_false]
      rw [ih rest (r0 :: rs) (stack ++ [p]) hrest (by simp)]
      rcases hlr : listResults rest with e | ⟨ps, ess⟩ <;>
        simp [listResults, nodeResult, hlr, List.append_assoc]
    · have hsz : forestSize (LayoutTree.hsplit hdr cs :: rest) =
          1 + treeSize (LayoutTree.hsplit hdr cs) + forestSize rest := by simp [forestSize]
      have ht : treeSize (LayoutTree.hsplit hdr cs) = 1 + forestSize cs := by simp [treeSize]
      have hcs : forestSize cs ≤ f := by have := forestSize_pos rest; omega
      have hrest : forestSize rest ≤ f := by have := forestSize_pos cs; omega
      simp only [parse_layout_inner, List.isEmpty_cons, Bool.false_eq_true, if_false]
      rw [ih cs (r0 :: rs) [] hcs (by simp)]
      rcases hlr : listResults cs with e | ⟨cps, ces⟩
      · simp [listResults, nodeResult, hlr]
      · simp only [hlr, List.nil_append]
        rcases hgl : cps.getLast? with _ | last
        · simp [listResults, nodeResult, hlr, hgl]
        · simp only [hgl]
          rw [ih rest _ _ hrest (by simp)]
          rcases hlr2 : listResults rest with e | ⟨ps, ess⟩ <;>
            simp [listResults, nodeResult, hlr, hgl, hlr2, List.append_assoc]
    · have hsz : forestSize (LayoutTree.vsplit hdr cs :: rest) =
          1 + treeSize (LayoutTree.vsplit hdr cs) + forestSize rest := by simp [forestSize]
      have ht : treeSize (LayoutTree.vsplit hdr cs) = 1 + forestSize cs := by simp [treeSize]
      have hcs : forestSize cs ≤ f := by have := forestSize_pos rest; omega
      have hrest : forestSize rest ≤ f := by have := forestSize_pos cs; omega
      simp only [parse_layout_inner, List.isEmpty_cons, Bool.false_eq_true, if_false]
      rw [ih cs (r0 :: rs) [] hcs (by simp)]
      rcases hlr : listResults cs with e | ⟨cps, ces⟩
      · simp [listResults, nodeResult, hlr]
      · simp only [hlr, List.nil_append]
        rcases hgl : cps.getLast? with _ | last
        · simp [listResults, nodeResult, hlr, hgl]
        · simp only [hgl]
          rw [ih rest _ _ hrest (by simp)]
          rcases hlr2 : listResults rest with e | ⟨ps, ess⟩ <;>
            simp [listResults, nodeResult, hlr, hgl, hlr2, List.append_assoc]

/-- Flattening a parse tree agrees with the specification-level contract:
a single leaf gives `[SinglePane]`, a split root gives exactly its entries. -/
theorem parse_layout_tree_spec (root : LayoutTree) : parse_layout_tree root = layoutSpec root := by
  rcases root with p | ⟨hdr, cs⟩ | ⟨hdr, cs⟩
  · have h3 : forestSize [LayoutTree.leaf p] = 2 + 1 := by simp [forestSize, treeSize]
    unfold parse_layout_tree
    rw [h3]
    simp [parse_layout_inner, layoutSpec]
  · have h3 : forestSize [LayoutTree.hsplit hdr cs] = (forestSize cs + 2) + 1 := by
      simp [forestSize, treeSize]; omega
    unfold parse_layout_tree
    rw [h3]
    simp only [parse_layout_inner, List.isEmpty_nil, if_true, List.nil_append]
    rw [parse_layout_inner_eval (forestSize cs + 2) cs [WindowLayout.SplitHorizontal []] []
      (by omega) (by simp)]
    rcases hlr : listResults cs with e | ⟨cps, ces⟩
    · simp [layoutSpec, nodeResult, hlr]
    · dsimp only [List.nil_append]
      rcases hgl : cps.getLast? with _ | last
      · simp [layoutSpec, nodeResult, hlr, hgl]
      · dsimp only
        rw [if_pos (by simp)]
        have hdl : ∀ (x : WindowLayout) (l : List WindowLayout) (y : WindowLayout),
            (x :: (l ++ [y])).dropLast = x :: l := by
          intro x l y
          rw [← List.cons_append, List.dropLast_concat]
        rw [hdl]
        simp [layoutSpec, nodeResult, hlr, hgl]
  · have h3 : forestSize [LayoutTree.vsplit hdr cs] = (forestSize cs + 2) + 1 := by
      simp [forestSize, treeSize]; omega
    unfold parse_layout_tree
    rw [h3]
    simp only [parse_layout_inner, List.isEmpty_nil, if_true, List.nil_append]
    rw [parse_layout_inner_eval (forestSize cs + 2) cs [WindowLayout.SplitHorizontal []] []
      (by omega) (by simp)]
    rcases hlr : listResults cs with e | ⟨cps, ces⟩
    · simp [layoutSpec, nodeResult, hlr]
    · dsimp only [List.nil_append]
      rcases hgl : cps.getLast? with _ | last
      · simp [layoutSpec, nodeResult, hlr, hgl]
      · dsimp only
        rw [if_pos (by simp)]
        have hdl : ∀ (x : WindowLayout) (l : List WindowLayout) (y : WindowLayout),
            (x :: (l ++ [y])).dropLast = x :: l := by
          intro x l y
          rw [← List.cons_append, List.dropLast_concat]
        rw [hdl]
        simp [layoutSpec, nodeResult, hlr, hgl]

/-- C5 counterexample: a horizontal split with two children produces a children
list `[header, c0]` — the last child's geometry is removed (only its `pane_id`
survives in the header), so the list is not `[header, c0, c1]`. -/
theorem split_children_drop_last :
    parse_layout (ascii "2x2,0,0\x7b1x2,0,0,1,1x2,1,0,2\x7d") =
      .ok [.SplitHorizontal [⟨2, 2, 2, 0, 0⟩, ⟨1, 1, 2, 0, 0⟩]] ∧
    ([WindowLayout.SplitHorizontal [⟨2, 2, 2, 0, 0⟩, ⟨1, 1, 2, 0, 0⟩]] : List WindowLayout) ≠
      [WindowLayout.SplitHorizontal [⟨2, 2, 2, 0, 0⟩, ⟨1, 1, 2, 0, 0⟩, ⟨2, 1, 2, 1, 0⟩]] :=
  ⟨rfl, by decide⟩

/-- C5 (amended): every split entry returned by `parse_layout` has the form
`[header, c0, …, c_(k-2)]` — the split's own geometry (with `pane_id` copied
from the last child) followed by the node panes of all children except the
last, exactly as described by `layoutSpec`/`nodeResult`. -/
theorem parse_layout_matches_spec (s : List Byte) :
    parse_layout s =
      match parse_layout_str s with
      | none => .error ()
      | some root => layoutSpec root := by
  unfold parse_layout
  cases hps : parse_layout_str s <;> simp [hps, parse_layout_tree_spec]

/-- C6: `parse_layout` on the three canonical vectors: a single pane; then
`SplitVertical`, `SplitHorizontal`, `SplitVertical`; then `SplitHorizontal`,
`SplitVertical`, `SplitHorizontal`. -/
theorem parse_layout_canonical_vectors :
    parse_layout (ascii "158x40,0,0,72") =
      .ok [.SinglePane ⟨72, 158, 40, 0, 0⟩] ∧
    parse_layout (ascii "158x40,0,0[158x20,0,0,69,158x19,0,21\x7b79x19,0,21,70,78x19,80,21[78x9,80,21,71,78x9,80,31,73]\x7d]") =
      .ok [.SplitVertical [⟨73, 158, 40, 0, 0⟩, ⟨69, 158, 20, 0, 0⟩],
           .SplitHorizontal [⟨73, 158, 19, 0, 21⟩, ⟨70, 79, 19, 0, 21⟩],
           .SplitVertical [⟨73, 78, 19, 80, 21⟩, ⟨71, 78, 9, 80, 21⟩]] ∧
    parse_layout (ascii "158x40,0,0\x7b79x40,0,0[79x20,0,0,74,79x19,0,21\x7b39x19,0,21,76,39x19,40,21,77\x7d],78x40,80,0,75\x7d") =
      .ok [.SplitHorizontal [⟨75, 158, 40, 0, 0⟩, ⟨77, 79, 40, 0, 0⟩],
           .SplitVertical [⟨77, 79, 40, 0, 0⟩, ⟨74, 79, 20, 0, 0⟩],
           .SplitHorizontal [⟨77, 79, 19, 0, 21⟩, ⟨76, 39, 19, 0, 21⟩]] :=
  ⟨rfl, rfl, rfl⟩

end TmuxCC
